import Mathlib

/-!
# Verification of the Tetris-2048 grid engine

A shallow embedding of the game engine of the Tetris-2048 repository
(`game_grid.py`, `tetromino.py`, `tile.py`) together with proofs about it.

Modelling conventions:
* A tile is represented by its number (`Nat`); a grid cell is `Option Nat`
  (`none` = empty, matching Python's `None`).
* The board is stored column-major: `cols` is the list of columns
  (`cols[c][r]` is the cell at row `r`, column `c`, row `0` = bottom).
  The Python source stores the same matrix row-major
  (`tile_matrix[row][col]`); the two are transposes of one another and
  every indexed access below is translated accordingly.
* The Python `while` loops are translated either into structural
  recursion over the scanned list (the merge scan) or into fuel-based
  recursion with a fuel proved (or chosen) sufficient.
-/

set_option autoImplicit false

namespace Tetris2048

/-- A cell of the board: `none` is an empty cell, `some v` a tile of value `v`. -/
abbrev Cell := Option Nat

/-- One column of the board, index = row, row 0 = bottom. -/
abbrev Column := List Cell

/-- The `GameGrid` state (`game_grid.py`, `__init__`): dimensions, the tile
matrix (here column-major), the score and the game-over flag.  Drawing
attributes are irrelevant to the engine and omitted. -/
structure GameGrid where
  grid_height : Nat
  grid_width : Nat
  cols : List Column
  score : Nat
  game_over : Bool
deriving Repr, DecidableEq

/-- A fresh grid as built by `GameGrid.__init__(grid_h, grid_w)`:
an empty `grid_h × grid_w` matrix, score `0`, `game_over = False`. -/
def mkGrid (grid_h grid_w : Nat) : GameGrid :=
  { grid_height := grid_h
    grid_width := grid_w
    cols := List.replicate grid_w (List.replicate grid_h none)
    score := 0
    game_over := false }

/-- Read cell (row `r`, column `c`); out-of-range reads yield `none`. -/
def getCell (cols : List Column) (r c : Nat) : Cell :=
  (cols.getD c []).getD r none

/-- Write cell (row `r`, column `c`). -/
def setCell (cols : List Column) (r c : Nat) (v : Cell) : List Column :=
  cols.set c ((cols.getD c []).set r v)

/-- `GameGrid.is_inside(row, col)`: `0 <= row < grid_height and 0 <= col < grid_width`.
The Python call sites pass possibly negative coordinates, so the arguments
are integers. -/
def isInside (g : GameGrid) (row col : Int) : Bool :=
  decide (0 ≤ row) && decide (row < g.grid_height) &&
    decide (0 ≤ col) && decide (col < g.grid_width)

/-- `GameGrid.is_occupied(row, col)`: inside the grid and the cell holds a tile. -/
def isOccupied (g : GameGrid) (row col : Int) : Bool :=
  isInside g row col && (getCell g.cols row.toNat col.toNat).isSome

/-! ## The bottom-up merge pass (`GameGrid.chain_bottom_up_merge`)

The Python scan over one column

```
row = 0
while row < self.grid_height - 1:
    current = self.tile_matrix[row][col]
    above = self.tile_matrix[row + 1][col]
    if current and above and current.number == above.number:
        current.merge_with(above)      # doubles the number (tile.py)
        self.tile_matrix[row + 1][col] = None
        self.score += current.number   # the doubled value
        merged = True
        row += 1                       # skip next row which was just merged
    row += 1
return merged
```

is translated into a structural recursion over the column (the scan never
looks back at an index it has passed).  `mergeCol` returns the new column,
the score gained and whether some merge happened in this column. -/

/-- One bottom-up merge scan over a single column: merge vertically adjacent
equal tiles (the lower doubles, the upper is cleared), accumulate the doubled
values into the score, and advance past a fresh merge (`row += 2`). -/
def mergeCol : Column → Column × Nat × Bool
  | [] => ([], 0, false)
  | [x] => ([x], 0, false)
  | none :: y :: rest =>
    let r := mergeCol (y :: rest)
    (none :: r.1, r.2.1, r.2.2)
  | some a :: none :: rest =>
    let r := mergeCol (none :: rest)
    (some a :: r.1, r.2.1, r.2.2)
  | some a :: some b :: rest =>
    if a = b then
      let r := mergeCol rest
      (some (a * 2) :: none :: r.1, a * 2 + r.2.1, true)
    else
      let r := mergeCol (some b :: rest)
      (some a :: r.1, r.2.1, r.2.2)

/-- One column of `GameGrid.chain_bottom_up_merge`: scan column `c`, write the
merged column back, add the gained score, and accumulate the merge flag. -/
def chainMergeStep (acc : GameGrid × Bool) (c : Nat) : GameGrid × Bool :=
  ({ acc.1 with
      cols := acc.1.cols.set c (mergeCol (acc.1.cols.getD c [])).1,
      score := acc.1.score + (mergeCol (acc.1.cols.getD c [])).2.1 },
    acc.2 || (mergeCol (acc.1.cols.getD c [])).2.2)

/-- `GameGrid.chain_bottom_up_merge(columns)`: run the bottom-up merge scan on
each listed column, accumulate score, and report whether any merge occurred. -/
def chainMerge (g : GameGrid) (columns : List Nat) : GameGrid × Bool :=
  columns.foldl chainMergeStep (g, false)

/-! ### Basic lemmas about `mergeCol` -/

theorem mergeCol_nil : mergeCol [] = ([], 0, false) := rfl

theorem mergeCol_single (x : Cell) : mergeCol [x] = ([x], 0, false) := by
  cases x <;> rfl

theorem mergeCol_merge (a : Nat) (rest : Column) :
    mergeCol (some a :: some a :: rest) =
      (some (a * 2) :: none :: (mergeCol rest).1,
        a * 2 + (mergeCol rest).2.1, true) := by
  simp [mergeCol]

theorem mergeCol_noMerge_ne (a b : Nat) (rest : Column) (h : a ≠ b) :
    mergeCol (some a :: some b :: rest) =
      (some a :: (mergeCol (some b :: rest)).1,
        (mergeCol (some b :: rest)).2.1, (mergeCol (some b :: rest)).2.2) := by
  simp [mergeCol, h]

theorem mergeCol_length : ∀ l : Column, (mergeCol l).1.length = l.length
  | [] => rfl
  | [x] => by cases x <;> rfl
  | none :: y :: rest => by
    simp [mergeCol, mergeCol_length (y :: rest)]
  | some a :: none :: rest => by
    simp [mergeCol, mergeCol_length (none :: rest)]
  | some a :: some b :: rest => by
    by_cases h : a = b
    · subst h
      simp [mergeCol, mergeCol_length rest]
    · simp [mergeCol, h, mergeCol_length (some b :: rest)]
termination_by l => l.length

/-- If the merge scan reports no merge, the column is unchanged and no score
was gained. -/
theorem mergeCol_false_eq : ∀ l : Column,
    (mergeCol l).2.2 = false → (mergeCol l).1 = l ∧ (mergeCol l).2.1 = 0
  | [] => by
    intro _
    exact ⟨rfl, rfl⟩
  | [x] => by
    intro _
    rw [mergeCol_single]
    exact ⟨rfl, rfl⟩
  | none :: y :: rest => by
    intro hf
    have := mergeCol_false_eq (y :: rest)
    simp [mergeCol] at hf ⊢
    exact ⟨(this hf).1, (this hf).2⟩
  | some a :: none :: rest => by
    intro hf
    have := mergeCol_false_eq (none :: rest)
    simp [mergeCol] at hf ⊢
    exact ⟨(this hf).1, (this hf).2⟩
  | some a :: some b :: rest => by
    intro hf
    by_cases h : a = b
    · subst h
      simp [mergeCol] at hf
    · have := mergeCol_false_eq (some b :: rest)
      simp [mergeCol, h] at hf ⊢
      exact ⟨(this hf).1, (this hf).2⟩
termination_by l => l.length

/-- If the merge scan reports a merge, the column changed. -/
theorem mergeCol_true_ne : ∀ l : Column, (mergeCol l).2.2 = true → (mergeCol l).1 ≠ l
  | [] => by
    intro ht
    simp [mergeCol] at ht
  | [x] => by
    intro ht
    simp [mergeCol] at ht
  | none :: y :: rest => by
    intro ht
    have := mergeCol_true_ne (y :: rest)
    simp [mergeCol] at ht ⊢
    exact this ht
  | some a :: none :: rest => by
    intro ht
    have := mergeCol_true_ne (none :: rest)
    simp [mergeCol] at ht ⊢
    exact this ht
  | some a :: some b :: rest => by
    intro ht
    by_cases h : a = b
    · subst h
      simp [mergeCol]
    · have := mergeCol_true_ne (some b :: rest)
      simp [mergeCol, h] at ht ⊢
      exact this ht
termination_by l => l.length

/-- The merge flag is `true` exactly when the scan changed the column. -/
theorem mergeCol_flag_iff (l : Column) :
    (mergeCol l).2.2 = true ↔ (mergeCol l).1 ≠ l := by
  constructor
  · exact mergeCol_true_ne l
  · intro hne
    by_contra hf
    exact hne ((mergeCol_false_eq l (by simpa using hf)).1)

/-! ### Counting occupied cells -/

/-- Number of occupied cells in one column. -/
def occCount (l : Column) : Nat :=
  l.countP (fun x => x.isSome)

/-- Number of occupied cells of the whole grid. -/
def occCountG (g : GameGrid) : Nat :=
  (g.cols.map occCount).sum

theorem occCount_cons_none (l : Column) : occCount (none :: l) = occCount l := by
  simp [occCount, List.countP_cons]

theorem occCount_cons_some (a : Nat) (l : Column) :
    occCount (some a :: l) = occCount l + 1 := by
  simp [occCount, List.countP_cons]

/-- The merge scan never adds tiles to a column. -/
theorem mergeCol_occ_le : ∀ l : Column, occCount (mergeCol l).1 ≤ occCount l
  | [] => le_refl _
  | [x] => by rw [mergeCol_single]
  | none :: y :: rest => by
    have h1 := mergeCol_occ_le (y :: rest)
    show occCount (none :: (mergeCol (y :: rest)).1) ≤ occCount (none :: y :: rest)
    rw [occCount_cons_none, occCount_cons_none]
    exact h1
  | some a :: none :: rest => by
    have h1 := mergeCol_occ_le (none :: rest)
    show occCount (some a :: (mergeCol (none :: rest)).1) ≤ occCount (some a :: none :: rest)
    rw [occCount_cons_some, occCount_cons_some]
    omega
  | some a :: some b :: rest => by
    by_cases h : a = b
    · subst h
      have h1 := mergeCol_occ_le rest
      have h2 : occCount (mergeCol (some a :: some a :: rest)).1 =
          occCount (some (a * 2) :: none :: (mergeCol rest).1) := by
        rw [mergeCol_merge]
      rw [h2, occCount_cons_some, occCount_cons_none, occCount_cons_some, occCount_cons_some]
      omega
    · have h1 := mergeCol_occ_le (some b :: rest)
      have h2 : occCount (mergeCol (some a :: some b :: rest)).1 =
          occCount (some a :: (mergeCol (some b :: rest)).1) := by
        rw [mergeCol_noMerge_ne a b rest h]
      rw [h2, occCount_cons_some, occCount_cons_some]
      omega
termination_by l => l.length

/-- A merge scan that reports a merge removed at least one tile. -/
theorem mergeCol_occ_lt : ∀ l : Column,
    (mergeCol l).2.2 = true → occCount (mergeCol l).1 < occCount l
  | [] => by
    intro ht
    simp [mergeCol_nil] at ht
  | [x] => by
    intro ht
    simp [mergeCol_single] at ht
  | none :: y :: rest => by
    intro ht
    have ht' : (mergeCol (y :: rest)).2.2 = true := ht
    have h1 := mergeCol_occ_lt (y :: rest) ht'
    show occCount (none :: (mergeCol (y :: rest)).1) < occCount (none :: y :: rest)
    rw [occCount_cons_none, occCount_cons_none]
    exact h1
  | some a :: none :: rest => by
    intro ht
    have ht' : (mergeCol (none :: rest)).2.2 = true := ht
    have h1 := mergeCol_occ_lt (none :: rest) ht'
    show occCount (some a :: (mergeCol (none :: rest)).1) < occCount (some a :: none :: rest)
    rw [occCount_cons_some, occCount_cons_some]
    omega
  | some a :: some b :: rest => by
    intro ht
    by_cases h : a = b
    · subst h
      have h1 := mergeCol_occ_le rest
      have h2 : occCount (mergeCol (some a :: some a :: rest)).1 =
          occCount (some (a * 2) :: none :: (mergeCol rest).1) := by
        rw [mergeCol_merge]
      rw [h2, occCount_cons_some, occCount_cons_none, occCount_cons_some, occCount_cons_some]
      omega
    · rw [mergeCol_noMerge_ne a b rest h] at ht
      have h1 := mergeCol_occ_lt (some b :: rest) ht
      have h2 : occCount (mergeCol (some a :: some b :: rest)).1 =
          occCount (some a :: (mergeCol (some b :: rest)).1) := by
        rw [mergeCol_noMerge_ne a b rest h]
      rw [h2, occCount_cons_some, occCount_cons_some]
      omega
termination_by l => l.length

/-- Replacing an in-range element of a list, effect on a sum over a map. -/
theorem sum_map_set {α : Type} (f : α → Nat) :
    ∀ (l : List α) (c : Nat) (a d : α), c < l.length →
      ((l.set c a).map f).sum + f (l.getD c d) = (l.map f).sum + f a
  | [], c, a, d, h => by simp at h
  | x :: t, 0, a, d, _ => by
    simp only [List.set_cons_zero, List.map_cons, List.sum_cons, List.getD_cons_zero]
    omega
  | x :: t, c + 1, a, d, h => by
    have h1 := sum_map_set f t c a d (by simpa using h)
    simp only [List.set_cons_succ, List.map_cons, List.sum_cons, List.getD_cons_succ]
    omega

/-- Writing back the value already stored leaves the list unchanged. -/
theorem set_getD_self {α : Type} :
    ∀ (l : List α) (c : Nat) (d : α), c < l.length → l.set c (l.getD c d) = l
  | [], c, d, h => by simp at h
  | x :: t, 0, d, _ => rfl
  | x :: t, c + 1, d, h => by
    have h1 := set_getD_self t c d (by simpa using h)
    rw [List.getD_cons_succ, List.set_cons_succ, h1]

/-- One `chainMergeStep` never adds tiles, and if it turned the flag on it
removed at least one tile. -/
theorem chainMergeStep_occ (g : GameGrid) (b : Bool) (c : Nat) :
    occCountG (chainMergeStep (g, b) c).1 ≤ occCountG g ∧
      ((chainMergeStep (g, b) c).2 = true →
        b = true ∨ occCountG (chainMergeStep (g, b) c).1 < occCountG g) := by
  by_cases hc : c < g.cols.length
  · have hle := mergeCol_occ_le (g.cols.getD c [])
    have hsum := sum_map_set occCount g.cols c (mergeCol (g.cols.getD c [])).1 [] hc
    have hfst : occCountG (chainMergeStep (g, b) c).1 =
        ((g.cols.set c (mergeCol (g.cols.getD c [])).1).map occCount).sum := rfl
    have hG : occCountG g = (g.cols.map occCount).sum := rfl
    constructor
    · rw [hfst, hG]
      omega
    · intro ht
      have ht' : (b || (mergeCol (g.cols.getD c [])).2.2) = true := ht
      rcases Bool.or_eq_true_iff.mp ht' with hb | hm
      · exact Or.inl hb
      · have hlt := mergeCol_occ_lt (g.cols.getD c []) hm
        right
        rw [hfst, hG]
        omega
  · push_neg at hc
    have hempty : g.cols.getD c [] = [] := by
      rw [List.getD_eq_getElem?_getD, List.getElem?_eq_none (by omega)]
      rfl
    have hset : g.cols.set c (mergeCol (g.cols.getD c [])).1 = g.cols :=
      List.set_eq_of_length_le (by omega)
    have hfst : occCountG (chainMergeStep (g, b) c).1 =
        ((g.cols.set c (mergeCol (g.cols.getD c [])).1).map occCount).sum := rfl
    constructor
    · rw [hfst, hset]
      exact le_refl _
    · intro ht
      have ht' : (b || (mergeCol (g.cols.getD c [])).2.2) = true := ht
      rw [hempty] at ht'
      simp only [mergeCol, Bool.or_false] at ht'
      exact Or.inl ht'

/-- Folded version of `chainMergeStep_occ` over a list of columns. -/
theorem chainMerge_fold_occ :
    ∀ (L : List Nat) (g : GameGrid) (b : Bool),
      occCountG (List.foldl chainMergeStep (g, b) L).1 ≤ occCountG g ∧
        ((List.foldl chainMergeStep (g, b) L).2 = true →
          b = true ∨ occCountG (List.foldl chainMergeStep (g, b) L).1 < occCountG g)
  | [], g, b => ⟨le_refl _, fun h => Or.inl h⟩
  | c :: L, g, b => by
    obtain ⟨hle₁, hflag₁⟩ := chainMergeStep_occ g b c
    obtain ⟨hle₂, hflag₂⟩ :=
      chainMerge_fold_occ L (chainMergeStep (g, b) c).1 (chainMergeStep (g, b) c).2
    rw [List.foldl_cons]
    constructor
    · calc occCountG (List.foldl chainMergeStep (chainMergeStep (g, b) c) L).1
          ≤ occCountG (chainMergeStep (g, b) c).1 := by
            have h := hle₂
            simpa using h
        _ ≤ occCountG g := hle₁
    · intro ht
      have ht' : (List.foldl chainMergeStep (chainMergeStep (g, b) c) L).2 = true := ht
      have h2 := hflag₂ (by simpa using ht')
      rcases h2 with hb' | hlt'
      · rcases hflag₁ hb' with hb | hlt
        · exact Or.inl hb
        · right
          calc occCountG (List.foldl chainMergeStep (chainMergeStep (g, b) c) L).1
              ≤ occCountG (chainMergeStep (g, b) c).1 := by simpa using hle₂
            _ < occCountG g := hlt
      · right
        calc occCountG (List.foldl chainMergeStep (chainMergeStep (g, b) c) L).1
            < occCountG (chainMergeStep (g, b) c).1 := by simpa using hlt'
          _ ≤ occCountG g := hle₁

/-- A merge pass never adds tiles to the grid. -/
theorem chainMerge_occ_le (g : GameGrid) (columns : List Nat) :
    occCountG (chainMerge g columns).1 ≤ occCountG g :=
  (chainMerge_fold_occ columns g false).1

/-- A merge pass reporting a merge removed at least one tile. -/
theorem chainMerge_occ_lt (g : GameGrid) (columns : List Nat)
    (h : (chainMerge g columns).2 = true) :
    occCountG (chainMerge g columns).1 < occCountG g := by
  rcases (chainMerge_fold_occ columns g false).2 h with hb | hlt
  · simp at hb
  · exact hlt

/-- If no column reports a merge, `chainMergeStep` leaves the state unchanged. -/
theorem chainMergeStep_false (g : GameGrid) (b : Bool) (c : Nat)
    (h : (chainMergeStep (g, b) c).2 = false) :
    chainMergeStep (g, b) c = (g, b) := by
  have h' : (b || (mergeCol (g.cols.getD c [])).2.2) = false := h
  obtain ⟨hb, hm⟩ := Bool.or_eq_false_iff.mp h'
  obtain ⟨hcol, hscore⟩ := mergeCol_false_eq (g.cols.getD c []) hm
  have hcols : g.cols.set c (mergeCol (g.cols.getD c [])).1 = g.cols := by
    rw [hcol]
    by_cases hc : c < g.cols.length
    · exact set_getD_self g.cols c [] hc
    · exact List.set_eq_of_length_le (le_of_not_lt hc)
  subst hb
  show ({ g with
      cols := g.cols.set c (mergeCol (g.cols.getD c [])).1,
      score := g.score + (mergeCol (g.cols.getD c [])).2.1 },
    false || (mergeCol (g.cols.getD c [])).2.2) = (g, false)
  rw [hcols, hscore, hm]
  simp

/-- The accumulated merge flag is sticky: once `true`, it stays `true`. -/
theorem chainMerge_fold_flag_mono :
    ∀ (L : List Nat) (g : GameGrid),
      (List.foldl chainMergeStep (g, true) L).2 = true
  | [], g => rfl
  | c :: L, g => by
    rw [List.foldl_cons]
    have h2 : (chainMergeStep (g, true) c).2 = true := rfl
    rw [show chainMergeStep (g, true) c = ((chainMergeStep (g, true) c).1, true) from
      Prod.ext rfl h2]
    exact chainMerge_fold_flag_mono L (chainMergeStep (g, true) c).1

/-- If the merge pass reports no merge, the grid is completely unchanged. -/
theorem chainMerge_false_eq :
    ∀ (L : List Nat) (g : GameGrid) (b : Bool),
      (List.foldl chainMergeStep (g, b) L).2 = false →
        List.foldl chainMergeStep (g, b) L = (g, b)
  | [], g, b, _ => rfl
  | c :: L, g, b, h => by
    rw [List.foldl_cons] at h ⊢
    have hstep : (chainMergeStep (g, b) c).2 = false := by
      by_contra hne
      have hstep' : (chainMergeStep (g, b) c).2 = true := by
        cases hx : (chainMergeStep (g, b) c).2
        · exact absurd hx hne
        · rfl
      rw [show chainMergeStep (g, b) c = ((chainMergeStep (g, b) c).1, true) from
        Prod.ext rfl hstep'] at h
      rw [chainMerge_fold_flag_mono L (chainMergeStep (g, b) c).1] at h
      exact absurd h (by simp)
    rw [chainMergeStep_false g b c hstep] at h ⊢
    exact chainMerge_false_eq L g b h

/-- The merge pass reports `true` exactly when it changed the grid contents. -/
theorem chainMerge_flag_iff (g : GameGrid) (columns : List Nat) :
    (chainMerge g columns).2 = true ↔ (chainMerge g columns).1.cols ≠ g.cols := by
  constructor
  · intro ht
    have := chainMerge_occ_lt g columns ht
    intro hcols
    have : occCountG (chainMerge g columns).1 = occCountG g := by
      simp [occCountG, hcols]
    omega
  · intro hne
    by_contra hf
    have hf' : (chainMerge g columns).2 = false := by
      cases hx : (chainMerge g columns).2
      · rfl
      · exact absurd hx hf
    have := chainMerge_false_eq columns g false hf'
    unfold chainMerge at hne
    rw [this] at hne
    exact hne rfl

/-- C1: the bottom-up merge pass scans each affected column bottom-to-top;
when the cells at rows `r` and `r+1` hold equal tiles it doubles the lower,
clears the upper, adds the doubled value to the score and advances the scan
by 2 (the recursion continues past the consumed pair); a column of three
stacked equal tiles undergoes exactly one merge (the bottom pair, score `2v`,
the third tile untouched); and the pass returns `true` exactly when at least
one merge occurred (the grid changed). -/
theorem claim_C1_merge_pass :
    (∀ (a : Nat) (rest : Column),
        mergeCol (some a :: some a :: rest) =
          (some (a * 2) :: none :: (mergeCol rest).1,
            a * 2 + (mergeCol rest).2.1, true))
    ∧ (∀ a : Nat,
        mergeCol [some a, some a, some a] = ([some (a * 2), none, some a], a * 2, true))
    ∧ (∀ (g : GameGrid) (columns : List Nat),
        (chainMerge g columns).2 = true ↔ (chainMerge g columns).1.cols ≠ g.cols) := by
  refine ⟨fun a rest => mergeCol_merge a rest, fun a => ?_, chainMerge_flag_iff⟩
  rw [mergeCol_merge]
  rw [mergeCol_single]
  rfl

/-! ## Adjacent equal pairs after a merge pass (claim C4) -/

/-- Does a column contain two vertically adjacent occupied cells of equal
value (i.e. is a merge possible in it)? -/
def hasAdjEqual : Column → Bool
  | some a :: some b :: rest => (a == b) || hasAdjEqual (some b :: rest)
  | _ :: y :: rest => hasAdjEqual (y :: rest)
  | _ => false

/-- The head of a merge scan of a column starting with an empty cell is empty. -/
theorem mergeCol_fst_head_none (rest : Column) :
    (mergeCol (none :: rest)).1.getD 0 none = none := by
  cases rest <;> rfl

/-- The head of a merge scan of a column starting with `some b` is either `b`
(no merge at the front) or `b * 2` (the front pair merged, so the second input
cell also held `b`). -/
theorem mergeCol_fst_head_some (b : Nat) (rest : Column) :
    (mergeCol (some b :: rest)).1.getD 0 none = some b ∨
      ((mergeCol (some b :: rest)).1.getD 0 none = some (b * 2) ∧
        rest.getD 0 none = some b) := by
  match rest with
  | [] => exact Or.inl rfl
  | none :: rs => exact Or.inl rfl
  | some c :: rs =>
    by_cases h : b = c
    · subst h
      right
      constructor
      · rw [mergeCol_merge]
        rfl
      · rfl
    · left
      rw [mergeCol_noMerge_ne b c rs h]
      rfl

/-- Any adjacent equal pair left by the merge scan was created by the scan
itself: the lower cell is unchanged from the input and the upper cell held
half its final value in the input (it was doubled by a merge higher up after
the pair was compared). -/
theorem mergeCol_adj_eq : ∀ (l : Column) (r v : Nat),
    (mergeCol l).1.getD r none = some v →
    (mergeCol l).1.getD (r + 1) none = some v →
    ∃ k, l.getD r none = some v ∧ l.getD (r + 1) none = some k ∧ v = k * 2
  | [], r, v, h1, _ => by
    rw [mergeCol_nil] at h1
    simp at h1
  | [x], r, v, _, h2 => by
    rw [mergeCol_single] at h2
    rcases r with _ | r' <;> simp at h2
  | none :: y :: rest, r, v, h1, h2 => by
    match r with
    | 0 =>
      have : (mergeCol (none :: y :: rest)).1.getD 0 none = none := by
        show (none :: (mergeCol (y :: rest)).1).getD 0 none = none
        rfl
      rw [this] at h1
      exact absurd h1 (by simp)
    | r' + 1 =>
      have h1' : (mergeCol (y :: rest)).1.getD r' none = some v := h1
      have h2' : (mergeCol (y :: rest)).1.getD (r' + 1) none = some v := h2
      obtain ⟨k, hk1, hk2, hk3⟩ := mergeCol_adj_eq (y :: rest) r' v h1' h2'
      exact ⟨k, hk1, hk2, hk3⟩
  | some a :: none :: rest, r, v, h1, h2 => by
    match r with
    | 0 =>
      have h2' : (mergeCol (none :: rest)).1.getD 0 none = some v := h2
      rw [mergeCol_fst_head_none] at h2'
      exact absurd h2' (by simp)
    | r' + 1 =>
      have h1' : (mergeCol (none :: rest)).1.getD r' none = some v := h1
      have h2' : (mergeCol (none :: rest)).1.getD (r' + 1) none = some v := h2
      obtain ⟨k, hk1, hk2, hk3⟩ := mergeCol_adj_eq (none :: rest) r' v h1' h2'
      exact ⟨k, hk1, hk2, hk3⟩
  | some a :: some b :: rest, r, v, h1, h2 => by
    by_cases h : a = b
    · subst h
      match r with
      | 0 =>
        have h2' : (mergeCol (some a :: some a :: rest)).1.getD 1 none = some v := h2
        rw [mergeCol_merge] at h2'
        exact absurd h2' (by simp)
      | 1 =>
        rw [mergeCol_merge] at h1
        exact absurd h1 (by simp)
      | r'' + 2 =>
        have h1' : (mergeCol rest).1.getD r'' none = some v := by
          rw [mergeCol_merge] at h1
          exact h1
        have h2' : (mergeCol rest).1.getD (r'' + 1) none = some v := by
          rw [mergeCol_merge] at h2
          exact h2
        obtain ⟨k, hk1, hk2, hk3⟩ := mergeCol_adj_eq rest r'' v h1' h2'
        exact ⟨k, hk1, hk2, hk3⟩
    · match r with
      | 0 =>
        have h1' : some a = some v := by
          rw [mergeCol_noMerge_ne a b rest h] at h1
          exact h1
        have h2' : (mergeCol (some b :: rest)).1.getD 0 none = some v := by
          rw [mergeCol_noMerge_ne a b rest h] at h2
          exact h2
        rcases mergeCol_fst_head_some b rest with hhead | ⟨hhead, hsecond⟩
        · rw [hhead] at h2'
          have hbv : b = v := by
            injection h2'
          have hav : a = v := by
            injection h1'
          exact absurd (hav.trans hbv.symm) h
        · rw [hhead] at h2'
          have hbv : b * 2 = v := by
            injection h2'
          exact ⟨b, h1', rfl, hbv.symm⟩
      | r' + 1 =>
        have h1' : (mergeCol (some b :: rest)).1.getD r' none = some v := by
          rw [mergeCol_noMerge_ne a b rest h] at h1
          exact h1
        have h2' : (mergeCol (some b :: rest)).1.getD (r' + 1) none = some v := by
          rw [mergeCol_noMerge_ne a b rest h] at h2
          exact h2
        obtain ⟨k, hk1, hk2, hk3⟩ := mergeCol_adj_eq (some b :: rest) r' v h1' h2'
        exact ⟨k, hk1, hk2, hk3⟩
termination_by l => l.length

/-- The concrete grid refuting claim C4: one column holding `[4, 2, 2]`
(bottom to top) on a 3-row, 1-column board. -/
def c4Grid : GameGrid :=
  { grid_height := 3
    grid_width := 1
    cols := [[some 4, some 2, some 2]]
    score := 0
    game_over := false }

/-- C4 is false as stated: on the column `[4, 2, 2]` a merge is possible (and
happens), yet the single bottom-up pass finishes with the adjacent equal pair
`[4, 4]` unmerged (the merge of the `2`s created a `4` directly above the
existing `4`, and the scan had already passed that pair). -/
theorem claim_C4_counterexample :
    hasAdjEqual (c4Grid.cols.getD 0 []) = true ∧
      (chainMerge c4Grid [0]).2 = true ∧
      (chainMerge c4Grid [0]).1.cols = [[some 4, some 4, none]] ∧
      hasAdjEqual ((chainMerge c4Grid [0]).1.cols.getD 0 []) = true := by
  decide

/-- C4 amended: after a single bottom-up merge pass a column may still hold
two vertically adjacent equal tiles, but only when the pass itself produced
the upper one: whenever rows `r` and `r+1` are equal (value `v`) after the
pass, row `r` already held `v` in the input and row `r+1` held `v / 2`, which
the pass doubled. -/
theorem claim_C4_adjacent_after_merge (l : Column) (r v : Nat)
    (h1 : (mergeCol l).1.getD r none = some v)
    (h2 : (mergeCol l).1.getD (r + 1) none = some v) :
    ∃ k, l.getD r none = some v ∧ l.getD (r + 1) none = some k ∧ v = k * 2 :=
  mergeCol_adj_eq l r v h1 h2

/-- Witness for the amended C4 on the column `[4, 2, 2]` at rows 0/1. -/
theorem claim_C4_adjacent_after_merge_witness :
    ∃ k, ([some 4, some 2, some 2] : Column).getD 0 none = some 4 ∧
      ([some 4, some 2, some 2] : Column).getD 1 none = some k ∧ 4 = k * 2 :=
  claim_C4_adjacent_after_merge [some 4, some 2, some 2] 0 4 (by decide) (by decide)

/-! ## Gravity settle (`GameGrid.fall_disconnected_tiles`)

The Python pass first flood-fills (BFS with a FIFO queue) from every occupied
bottom-row cell through 4-directional occupied neighbours, marking supported
tiles `visited`; then, for each column and for each row from `grid_height - 2`
down to `0`, an occupied unvisited cell falls straight down to rest on the
nearest occupied-or-floor cell below it.  The BFS `while queue` loop is
modelled with a fuel argument; every dequeued cell was enqueued exactly once
(it is marked visited when enqueued), so `H * W + W` fuel covers every
possible run, and the tile-movement phase does not depend on the fuel being
sufficient. -/

def getVis (vis : List (List Bool)) (r c : Nat) : Bool :=
  (vis.getD c []).getD r false

def setVis (vis : List (List Bool)) (r c : Nat) : List (List Bool) :=
  vis.set c ((vis.getD c []).set r true)

/-- The four neighbour offsets `[(-1,0), (1,0), (0,-1), (0,1)]` (row, col). -/
def neighborOffsets : List (Int × Int) :=
  [(-1, 0), (1, 0), (0, -1), (0, 1)]

/-- Process the four neighbours of a dequeued cell `(r, c)`: every in-bounds,
unvisited, occupied neighbour is marked visited and appended to the queue. -/
def bfsExpand (H W : Nat) (cols : List Column) (r c : Nat)
    (acc : List (Nat × Nat) × List (List Bool)) : List (Nat × Nat) × List (List Bool) :=
  neighborOffsets.foldl
    (fun acc d =>
      let nr : Int := (r : Int) + d.1
      let nc : Int := (c : Int) + d.2
      if 0 ≤ nr ∧ nr < (H : Int) ∧ 0 ≤ nc ∧ nc < (W : Int) then
        if getVis acc.2 nr.toNat nc.toNat then acc
        else if (getCell cols nr.toNat nc.toNat).isSome then
          (acc.1 ++ [(nr.toNat, nc.toNat)], setVis acc.2 nr.toNat nc.toNat)
        else acc
      else acc)
    acc

/-- The `while queue:` BFS loop, with fuel. -/
def bfsAux (H W : Nat) (cols : List Column) :
    Nat → List (Nat × Nat) → List (List Bool) → List (List Bool)
  | 0, _, vis => vis
  | _ + 1, [], vis => vis
  | fuel + 1, (r, c) :: q, vis =>
    let s := bfsExpand H W cols r c (q, vis)
    bfsAux H W cols fuel s.1 s.2

/-- The visited matrix: seed with the occupied bottom-row cells, then BFS. -/
def computeVisited (g : GameGrid) : List (List Bool) :=
  let vis0 : List (List Bool) :=
    List.replicate g.grid_width (List.replicate g.grid_height false)
  let seeds :=
    (List.range g.grid_width).foldl
      (fun (acc : List (Nat × Nat) × List (List Bool)) c =>
        if (getCell g.cols 0 c).isSome then (acc.1 ++ [(0, c)], setVis acc.2 0 c)
        else acc)
      ([], vis0)
  bfsAux g.grid_height g.grid_width g.cols
    (g.grid_height * g.grid_width + g.grid_width) seeds.1 seeds.2

/-- The `while dest > 0 and self.tile_matrix[dest-1][col] is None: dest -= 1`
search for the landing row of a falling tile. -/
def findDest (col : Column) : Nat → Nat
  | 0 => 0
  | d + 1 => if col.getD d none = none then findDest col d else d + 1

/-- The body of the tile-falling loop for one cell (row `r`) of one column:
`if self.tile_matrix[row][col] is not None and not visited[row][col]`, find
the destination and, if it differs, copy the cell down and clear the source. -/
def fallStep (vis : List Bool) (col : Column) (r : Nat) : Column :=
  if col.getD r none ≠ none ∧ vis.getD r false = false then
    if findDest col r = r then col
    else (col.set (findDest col r) (col.getD r none)).set r none
  else col

/-- The falling phase for one column: rows `grid_height - 2` down to `0`. -/
def fallColumn (H : Nat) (vis : List Bool) (col : Column) : Column :=
  ((List.range (H - 1)).reverse).foldl (fallStep vis) col

/-- `GameGrid.fall_disconnected_tiles()`: flood-fill the supported tiles, then
drop every unvisited tile straight down in its own column. -/
def fallDisconnected (g : GameGrid) : GameGrid :=
  { g with
      cols := (List.range g.grid_width).map
        (fun c =>
          fallColumn g.grid_height ((computeVisited g).getD c []) (g.cols.getD c [])) }

/-! ### The falling phase moves tiles but never creates or destroys them -/

theorem findDest_le (col : Column) : ∀ r : Nat, findDest col r ≤ r
  | 0 => le_refl 0
  | d + 1 => by
    rw [findDest]
    by_cases h : col.getD d none = none
    · rw [if_pos h]
      exact le_trans (findDest_le col d) (Nat.le_succ d)
    · rw [if_neg h]

/-- The landing cell of a tile that actually moves is empty. -/
theorem findDest_spec (col : Column) : ∀ r : Nat,
    findDest col r = r ∨ (findDest col r < r ∧ col.getD (findDest col r) none = none)
  | 0 => Or.inl rfl
  | d + 1 => by
    rw [findDest]
    by_cases h : col.getD d none = none
    · rw [if_pos h]
      rcases findDest_spec col d with heq | ⟨hlt, hnone⟩
      · right
        rw [heq]
        exact ⟨Nat.lt_succ_self d, h⟩
      · exact Or.inr ⟨Nat.lt_trans hlt (Nat.lt_succ_self d), hnone⟩
    · rw [if_neg h]
      exact Or.inl rfl

theorem getD_set_ne {α : Type} :
    ∀ (l : List α) (i j : Nat) (a d : α), i ≠ j → (l.set i a).getD j d = l.getD j d
  | [], _, _, _, _, _ => rfl
  | x :: t, 0, 0, a, d, h => absurd rfl h
  | x :: t, 0, j + 1, a, d, _ => rfl
  | x :: t, i + 1, 0, a, d, _ => rfl
  | x :: t, i + 1, j + 1, a, d, h =>
    getD_set_ne t i j a d (fun he => h (congrArg Nat.succ he))

theorem countP_set {α : Type} (p : α → Bool) :
    ∀ (l : List α) (i : Nat) (a d : α), i < l.length →
      (l.set i a).countP p + (if p (l.getD i d) then 1 else 0) =
        l.countP p + (if p a then 1 else 0)
  | [], i, a, d, h => by simp at h
  | x :: t, 0, a, d, _ => by
    simp only [List.set_cons_zero, List.countP_cons, List.getD_cons_zero]
    omega
  | x :: t, i + 1, a, d, h => by
    have h1 := countP_set p t i a d (by simpa using h)
    simp only [List.set_cons_succ, List.countP_cons, List.getD_cons_succ]
    omega

/-- If an index reads a tile, it is in range. -/
theorem getD_isSome_lt (col : Column) (r : Nat) (h : col.getD r none ≠ none) :
    r < col.length := by
  by_contra hge
  rw [List.getD_eq_getElem?_getD, List.getElem?_eq_none (by omega)] at h
  exact h rfl

/-- One step of the falling loop preserves the occupied-cell count and the
column length: a tile only ever moves into an empty cell of its own column. -/
theorem fallStep_occ (vis : List Bool) (col : Column) (r : Nat) :
    occCount (fallStep vis col r) = occCount col ∧
      (fallStep vis col r).length = col.length := by
  unfold fallStep
  by_cases hcond : col.getD r none ≠ none ∧ vis.getD r false = false
  · rw [if_pos hcond]
    by_cases hd : findDest col r = r
    · rw [if_pos hd]
      exact ⟨rfl, rfl⟩
    · rw [if_neg hd]
      rcases findDest_spec col r with heq | ⟨hlt, hnone⟩
      · exact absurd heq hd
      · obtain ⟨hne, _⟩ := hcond
        have hsome : (col.getD r none).isSome = true := Option.isSome_iff_ne_none.mpr hne
        have hr : r < col.length := getD_isSome_lt col r hne
        have hdlen : findDest col r < col.length := lt_trans hlt hr
        have hset1 := countP_set (fun x : Cell => x.isSome) col (findDest col r)
          (col.getD r none) none hdlen
        have hset2 := countP_set (fun x : Cell => x.isSome)
          (col.set (findDest col r) (col.getD r none)) r none none (by
            rw [List.length_set]
            exact hr)
        have hother : (col.set (findDest col r) (col.getD r none)).getD r none =
            col.getD r none :=
          getD_set_ne col (findDest col r) r (col.getD r none) none hd
        rw [hnone] at hset1
        rw [hother] at hset2
        constructor
        · show occCount ((col.set (findDest col r) (col.getD r none)).set r none) =
            occCount col
          simp only [occCount] at hset1 hset2 ⊢
          simp only [Option.isSome_some, Option.isSome_none, hsome] at hset1 hset2
          simp only [if_true, if_false] at hset1 hset2
          omega
        · show ((col.set (findDest col r) (col.getD r none)).set r none).length = col.length
          rw [List.length_set, List.length_set]
  · rw [if_neg hcond]
    exact ⟨rfl, rfl⟩

/-- The whole falling loop of one column preserves the occupied-cell count. -/
theorem fallColumn_fold_occ (vis : List Bool) :
    ∀ (rows : List Nat) (col : Column),
      occCount (rows.foldl (fallStep vis) col) = occCount col
  | [], _ => rfl
  | r :: rows, col => by
    rw [List.foldl_cons]
    rw [fallColumn_fold_occ vis rows (fallStep vis col r)]
    exact (fallStep_occ vis col r).1

theorem fallColumn_occ (H : Nat) (vis : List Bool) (col : Column) :
    occCount (fallColumn H vis col) = occCount col :=
  fallColumn_fold_occ vis ((List.range (H - 1)).reverse) col

/-- Summing a function over the elements of a list via `List.range`. -/
theorem sum_map_range_getD {α : Type} (f : α → Nat) (d : α) :
    ∀ l : List α,
      ((List.range l.length).map (fun c => f (l.getD c d))).sum = (l.map f).sum
  | [] => rfl
  | x :: t => by
    have h1 := sum_map_range_getD f d t
    rw [List.length_cons, List.range_succ_eq_map]
    simp only [List.map_cons, List.map_map, List.sum_cons, List.getD_cons_zero]
    have h2 : ((List.range t.length).map
        ((fun c => f ((x :: t).getD c d)) ∘ Nat.succ)) =
        (List.range t.length).map (fun c => f (t.getD c d)) := by
      apply List.map_congr_left
      intro c _
      rfl
    rw [h2, h1]

/-- The gravity-settle pass never adds or removes tiles (for a grid whose
column list has the declared width). -/
theorem fallDisconnected_occ (g : GameGrid) (hw : g.cols.length = g.grid_width) :
    occCountG (fallDisconnected g) = occCountG g := by
  have hcols : (fallDisconnected g).cols = (List.range g.grid_width).map
      (fun c =>
        fallColumn g.grid_height ((computeVisited g).getD c []) (g.cols.getD c [])) := rfl
  rw [occCountG, hcols, List.map_map]
  have h1 : ((List.range g.grid_width).map
      (occCount ∘ fun c =>
        fallColumn g.grid_height ((computeVisited g).getD c []) (g.cols.getD c []))) =
      (List.range g.grid_width).map (fun c => occCount (g.cols.getD c [])) := by
    apply List.map_congr_left
    intro c _
    exact fallColumn_occ g.grid_height ((computeVisited g).getD c []) (g.cols.getD c [])
  rw [h1, ← hw, sum_map_range_getD occCount [] g.cols]
  rfl

/-- The settle pass does not touch the score, the game-over flag or the
declared dimensions, and it restores the declared width of the column list. -/
theorem fallDisconnected_frame (g : GameGrid) :
    (fallDisconnected g).score = g.score ∧
      (fallDisconnected g).game_over = g.game_over ∧
      (fallDisconnected g).grid_height = g.grid_height ∧
      (fallDisconnected g).grid_width = g.grid_width ∧
      (fallDisconnected g).cols.length = g.grid_width := by
  refine ⟨rfl, rfl, rfl, rfl, ?_⟩
  show ((List.range g.grid_width).map _).length = g.grid_width
  rw [List.length_map, List.length_range]

/-- The grid refuting settle idempotence (claim C3): a single column of
height 4 whose bottom row is empty and whose rows 1 and 2 hold tiles. -/
def c3Grid : GameGrid :=
  { grid_height := 4
    grid_width := 1
    cols := [[none, some 2, some 4, none]]
    score := 0
    game_over := false }

/-- C3: the gravity-settle pass is not idempotent.  On `c3Grid` both tiles are
floating; the falling loop scans rows top-down, so the tile at row 2 is
blocked by the tile at row 1 and stays put while the row-1 tile falls to the
floor; a second call then finds the row-2 tile disconnected and moves it,
changing the grid.  This contradicts the function's own description (it is
meant to let every unsupported tile fall). -/
theorem claim_C3_settle_not_idempotent :
    (fallDisconnected c3Grid).cols = [[some 2, none, some 4, none]] ∧
      (fallDisconnected (fallDisconnected c3Grid)).cols = [[some 2, some 4, none, none]] ∧
      fallDisconnected (fallDisconnected c3Grid) ≠ fallDisconnected c3Grid := by
  decide

/-! ## Row clearing (`GameGrid.clear_full_rows_return_columns`)

The Python loop scans `row` from `0` while `row < grid_height`; a full row
(`None not in self.tile_matrix[row]`) is deleted by
`shift_down_above_row(row)` (every row above shifts down one, the top row
becomes empty) and the same `row` index is re-tested; otherwise `row`
advances.  The `while` loop is modelled with fuel; fuel
`grid_height + occupied-cell count + 1` is proved sufficient below (each
clear removes a full row of `grid_width ≥ 1` tiles, each advance shrinks
`grid_height - row`). -/

/-- Is row `r` full?  (`None not in self.tile_matrix[row]`; vacuously true
for a zero-width grid, as in Python.) -/
def rowFull (cols : List Column) (r : Nat) : Bool :=
  cols.all (fun col => (col.getD r none).isSome)

/-- Sum of the tile values in row `r` (`if tile: cleared_score += tile.number`). -/
def rowScore (cols : List Column) (r : Nat) : Nat :=
  (cols.map (fun col => (col.getD r none).getD 0)).sum

/-- `GameGrid.shift_down_above_row(row_index)`: delete row `r`, shift every
row above down by one, empty the top row.  Column-wise this erases index `r`
and appends an empty cell at the top. -/
def removeRow (cols : List Column) (r : Nat) : List Column :=
  cols.map (fun col => col.eraseIdx r ++ [none])

/-- The clearing loop: current row index, remaining fuel, accumulated score
of cleared tiles. -/
def clearAux (H : Nat) : Nat → Nat → List Column → Nat → List Column × Nat
  | 0, _, cols, acc => (cols, acc)
  | fuel + 1, row, cols, acc =>
    if row < H then
      if rowFull cols row then
        clearAux H fuel row (removeRow cols row) (acc + rowScore cols row)
      else clearAux H fuel (row + 1) cols acc
    else (cols, acc)

/-- `GameGrid.clear_full_rows_return_columns()` (the returned column set is
unused by the caller and omitted): clear all full rows, add the accumulated
tile values to the score. -/
def clearRows (g : GameGrid) : GameGrid :=
  { g with
      cols := (clearAux g.grid_height (g.grid_height + occCountG g + 1) 0 g.cols 0).1,
      score := g.score + (clearAux g.grid_height (g.grid_height + occCountG g + 1) 0 g.cols 0).2 }

/-! ### Lemmas about row clearing -/

/-- Value of one column's tiles (empty cells count 0). -/
def colScore (col : Column) : Nat :=
  (col.map (fun x => x.getD 0)).sum

/-- Total value of all tiles in the grid contents. -/
def tileSum (cols : List Column) : Nat :=
  (cols.map colScore).sum

/-- Occupied-cell count of raw grid contents. -/
def occCols (cols : List Column) : Nat :=
  (cols.map occCount).sum

theorem occCountG_eq_occCols (g : GameGrid) : occCountG g = occCols g.cols := rfl

/-- `occCount` as a sum over the column. -/
theorem occCount_eq_summap : ∀ l : Column,
    occCount l = (l.map (fun x => if x.isSome then 1 else 0)).sum
  | [] => rfl
  | x :: t => by
    rw [occCount, List.countP_cons, List.map_cons, List.sum_cons, ← occCount,
      occCount_eq_summap t]
    omega

/-- Reads strictly below an erased index are unchanged. -/
theorem getD_eraseIdx_lt {α : Type} :
    ∀ (l : List α) (i r : Nat) (d : α), r < i → (l.eraseIdx i).getD r d = l.getD r d
  | [], _, _, _, _ => rfl
  | x :: t, 0, r, d, h => by omega
  | x :: t, i + 1, 0, d, _ => rfl
  | x :: t, i + 1, r + 1, d, h => by
    rw [List.eraseIdx_cons_succ, List.getD_cons_succ, List.getD_cons_succ]
    exact getD_eraseIdx_lt t i r d (by omega)

/-- Erasing index `r` and appending a zero-valued element: effect on a sum. -/
theorem sum_map_eraseIdx_append {α : Type} (f : α → Nat) (z : α) (hz : f z = 0) :
    ∀ (l : List α) (r : Nat), r < l.length →
      ((l.eraseIdx r ++ [z]).map f).sum + f (l.getD r z) = (l.map f).sum
  | [], r, h => by simp at h
  | x :: t, 0, _ => by
    simp only [List.eraseIdx_cons_zero, List.map_append, List.sum_append, List.map_cons,
      List.sum_cons, List.map_nil, List.sum_nil, List.getD_cons_zero, hz]
    omega
  | x :: t, r + 1, h => by
    have h1 := sum_map_eraseIdx_append f z hz t r (by simpa using h)
    simp only [List.eraseIdx_cons_succ, List.cons_append, List.map_cons, List.sum_cons,
      List.getD_cons_succ]
    omega

/-- Clearing a row conserves tile value: the removed row's score accounts
exactly for the difference. -/
theorem removeRow_tileSum :
    ∀ (cols : List Column) (r : Nat) (H : Nat), (∀ col ∈ cols, col.length = H) → r < H →
      tileSum (removeRow cols r) + rowScore cols r = tileSum cols
  | [], _, _, _, _ => rfl
  | col :: cols, r, H, hwf, hr => by
    have h1 := removeRow_tileSum cols r H (fun c hc => hwf c (List.mem_cons_of_mem col hc)) hr
    have hlen : r < col.length := by
      rw [hwf col (List.mem_cons_self col cols)]
      exact hr
    have h2' : colScore (col.eraseIdx r ++ [none]) + (col.getD r none).getD 0 =
        colScore col :=
      sum_map_eraseIdx_append (fun x : Cell => x.getD 0) none rfl col r hlen
    have e1 : tileSum (removeRow (col :: cols) r) =
        colScore (col.eraseIdx r ++ [none]) + tileSum (removeRow cols r) := rfl
    have e2 : rowScore (col :: cols) r =
        (col.getD r none).getD 0 + rowScore cols r := rfl
    have e3 : tileSum (col :: cols) = colScore col + tileSum cols := rfl
    rw [e1, e2, e3]
    omega

/-- Clearing a full row removes exactly `cols.length` occupied cells. -/
theorem removeRow_occCols :
    ∀ (cols : List Column) (r : Nat) (H : Nat), (∀ col ∈ cols, col.length = H) → r < H →
      rowFull cols r = true →
      occCols (removeRow cols r) + cols.length = occCols cols
  | [], _, _, _, _, _ => rfl
  | col :: cols, r, H, hwf, hr, hfull => by
    have hfull' : rowFull cols r = true ∧ (col.getD r none).isSome = true := by
      rw [rowFull] at hfull
      rw [List.all_cons, Bool.and_eq_true] at hfull
      exact ⟨hfull.2, hfull.1⟩
    have h1 := removeRow_occCols cols r H (fun c hc => hwf c (List.mem_cons_of_mem col hc))
      hr hfull'.1
    have hlen : r < col.length := by
      rw [hwf col (List.mem_cons_self col cols)]
      exact hr
    have h2 := sum_map_eraseIdx_append (fun x : Cell => if x.isSome then 1 else 0)
      none rfl col r hlen
    simp only [] at h2
    rw [hfull'.2, if_pos rfl] at h2
    have h2' : occCount (col.eraseIdx r ++ [none]) + 1 = occCount col := by
      rw [occCount_eq_summap, occCount_eq_summap]
      exact h2
    have e1 : occCols (removeRow (col :: cols) r) =
        occCount (col.eraseIdx r ++ [none]) + occCols (removeRow cols r) := rfl
    have e2 : occCols (col :: cols) = occCount col + occCols cols := rfl
    rw [e1, e2, List.length_cons]
    omega

/-- `removeRow` keeps every column at its original length. -/
theorem removeRow_wf (cols : List Column) (r : Nat) (H : Nat)
    (hwf : ∀ col ∈ cols, col.length = H) (hr : r < H) :
    ∀ col ∈ removeRow cols r, col.length = H := by
  intro col hcol
  rw [removeRow] at hcol
  obtain ⟨c, hc, rfl⟩ := List.mem_map.mp hcol
  rw [List.length_append, List.length_eraseIdx, hwf c hc, if_pos hr]
  simp
  omega

/-- Below the cleared row nothing moves. -/
theorem rowFull_removeRow_lt :
    ∀ (cols : List Column) (row r H : Nat), (∀ col ∈ cols, col.length = H) →
      row < H → r < row →
      rowFull (removeRow cols row) r = rowFull cols r
  | [], _, _, _, _, _, _ => rfl
  | col :: cols, row, r, H, hwf, hrow, hr => by
    have hIH := rowFull_removeRow_lt cols row r H
      (fun c hc => hwf c (List.mem_cons_of_mem col hc)) hrow hr
    have hlen : (col.eraseIdx row).length = H - 1 := by
      rw [List.length_eraseIdx, hwf col (List.mem_cons_self col cols), if_pos hrow]
    have hgd : (col.eraseIdx row ++ [none]).getD r none = col.getD r none := by
      rw [List.getD_append _ _ _ r (by rw [hlen]; omega), getD_eraseIdx_lt col row r none hr]
    have e : rowFull (removeRow (col :: cols) row) r =
        (((col.eraseIdx row ++ [none]).getD r none).isSome &&
          rowFull (removeRow cols row) r) := rfl
    rw [e, hgd, hIH]
    rfl

/-- Conservation through the clearing loop: final tile value plus accumulated
score equals initial tile value plus initial accumulator. -/
theorem clearAux_conserve (H : Nat) :
    ∀ (fuel row : Nat) (cols : List Column) (acc : Nat),
      (∀ col ∈ cols, col.length = H) →
      tileSum (clearAux H fuel row cols acc).1 + (clearAux H fuel row cols acc).2 =
        tileSum cols + acc
  | 0, _, _, _, _ => rfl
  | fuel + 1, row, cols, acc, hwf => by
    rw [clearAux]
    by_cases hrow : row < H
    · rw [if_pos hrow]
      by_cases hfull : rowFull cols row
      · rw [if_pos hfull]
        have h1 := clearAux_conserve H fuel row (removeRow cols row)
          (acc + rowScore cols row) (removeRow_wf cols row H hwf hrow)
        have h2 := removeRow_tileSum cols row H hwf hrow
        omega
      · rw [if_neg hfull]
        exact clearAux_conserve H fuel (row + 1) cols acc hwf
    · rw [if_neg hrow]

/-- Fuel sufficiency: with fuel at least `(H - row) + occupied + 1` the loop
reaches `row = H` having cleared every full row from `row` upwards, so no full
row remains (given the grid is at least one column wide and rows below `row`
were already checked). -/
theorem clearAux_no_full (H : Nat) :
    ∀ (fuel row : Nat) (cols : List Column) (acc : Nat),
      (∀ col ∈ cols, col.length = H) → cols ≠ [] →
      (H - row) + occCols cols + 1 ≤ fuel →
      (∀ r, r < row → rowFull cols r = false) →
      ∀ r, r < H → rowFull (clearAux H fuel row cols acc).1 r = false
  | 0, row, cols, acc, _, _, hfuel, _ => by omega
  | fuel + 1, row, cols, acc, hwf, hne, hfuel, hprev => by
    rw [clearAux]
    by_cases hrow : row < H
    · rw [if_pos hrow]
      by_cases hfull : rowFull cols row
      · rw [if_pos hfull]
        have hlen : 1 ≤ cols.length := by
          cases cols
          · exact absurd rfl hne
          · simp
        have hocc := removeRow_occCols cols row H hwf hrow hfull
        have hne' : removeRow cols row ≠ [] := by
          rw [removeRow]
          intro hmap
          rw [List.map_eq_nil_iff] at hmap
          exact hne hmap
        apply clearAux_no_full H fuel row (removeRow cols row) (acc + rowScore cols row)
          (removeRow_wf cols row H hwf hrow) hne' (by omega)
        intro r hr
        rw [rowFull_removeRow_lt cols row r H hwf hrow hr]
        exact hprev r hr
      · rw [if_neg hfull]
        apply clearAux_no_full H fuel (row + 1) cols acc hwf hne (by omega)
        intro r hr
        rcases Nat.lt_or_ge r row with h | h
        · exact hprev r h
        · have : r = row := by omega
          subst this
          cases hx : rowFull cols r
          · rfl
          · exact absurd hx hfull
    · rw [if_neg hrow]
      intro r hr
      exact hprev r (by omega)

/-- The concrete grid for the C5 witness: 3 rows, 2 columns, bottom row full. -/
def c5Grid : GameGrid :=
  { grid_height := 3
    grid_width := 2
    cols := [[some 2, some 4, none], [some 2, none, none]]
    score := 0
    game_over := false }

/-- C5: the clearing phase scans rows bottom-to-top; a full row is removed by
shifting each row above it down one and emptying the top row (`removeRow`)
and the same row index is re-tested, a non-full row advances the index; the
score increases by exactly the total value of the cleared tiles (conservation:
final score plus remaining tile value equals initial score plus initial tile
value); and afterwards no full row remains (stacked full rows cascade). -/
theorem claim_C5_row_clearing (g : GameGrid)
    (hwf : ∀ col ∈ g.cols, col.length = g.grid_height) (hne : g.cols ≠ []) :
    (∀ (fuel row : Nat) (cols : List Column) (acc : Nat), row < g.grid_height →
        rowFull cols row = true →
        clearAux g.grid_height (fuel + 1) row cols acc =
          clearAux g.grid_height fuel row (removeRow cols row) (acc + rowScore cols row))
    ∧ (∀ (fuel row : Nat) (cols : List Column) (acc : Nat), row < g.grid_height →
        rowFull cols row = false →
        clearAux g.grid_height (fuel + 1) row cols acc =
          clearAux g.grid_height fuel (row + 1) cols acc)
    ∧ (clearRows g).score + tileSum (clearRows g).cols = g.score + tileSum g.cols
    ∧ (∀ r, r < g.grid_height → rowFull (clearRows g).cols r = false) := by
  refine ⟨?_, ?_, ?_, ?_⟩
  · intro fuel row cols acc hrow hfull
    rw [clearAux, if_pos hrow, if_pos hfull]
  · intro fuel row cols acc hrow hfull
    rw [clearAux, if_pos hrow, if_neg (by rw [hfull]; exact Bool.false_ne_true)]
  · have h1 := clearAux_conserve g.grid_height (g.grid_height + occCountG g + 1) 0 g.cols 0 hwf
    show g.score + (clearAux g.grid_height (g.grid_height + occCountG g + 1) 0 g.cols 0).2 +
        tileSum (clearAux g.grid_height (g.grid_height + occCountG g + 1) 0 g.cols 0).1 =
      g.score + tileSum g.cols
    omega
  · intro r hr
    exact clearAux_no_full g.grid_height (g.grid_height + occCountG g + 1) 0 g.cols 0 hwf hne
      (by rw [occCountG_eq_occCols]; omega) (fun r hr => by omega) r hr

/-- Witness for C5 on `c5Grid` (bottom row `[2, 2]` is full and cleared). -/
theorem claim_C5_row_clearing_witness :
    (clearRows c5Grid).score + tileSum (clearRows c5Grid).cols =
        c5Grid.score + tileSum c5Grid.cols ∧
      rowFull (clearRows c5Grid).cols 0 = false :=
  ⟨(claim_C5_row_clearing c5Grid (by decide) (by decide)).2.2.1,
    (claim_C5_row_clearing c5Grid (by decide) (by decide)).2.2.2 0 (by decide)⟩

/-! ## Locking a tetromino (`GameGrid.update_grid`)

`update_grid(tiles_to_lock, blc_position)` walks the footprint matrix
(column-outer, row-inner; the footprint is row-major with row 0 the top of
the local matrix); each occupied cell maps to board coordinates
`(blc.x + col, blc.y + (n_rows - 1 - row))`; in-bounds cells are placed and
their column recorded as affected, out-of-bounds cells set `game_over`.
If the game-over flag is set (whether from this call or a previous one) the
call returns `True` immediately; otherwise it alternates merge passes over
the affected columns with settle passes until a pass merges nothing, clears
full rows, settles once more, and returns `False`.  The unbounded merge
loop is modelled with fuel `occupied-count + 1`, proved sufficient below
(each merging pass removes at least one tile). -/

/-- The scan order of the placement loops: `for col in range(n_cols): for row
in range(n_rows):`, as (row, col) pairs. -/
def footprintPairs (n_rows n_cols : Nat) : List (Nat × Nat) :=
  (List.range n_cols).flatMap (fun c => (List.range n_rows).map (fun r => (r, c)))

/-- Board x/y of footprint cell (row `r`, col `c`). -/
def lockX (blc : Int × Int) (c : Nat) : Int := blc.1 + c

def lockY (blc : Int × Int) (n_rows : Nat) (r : Nat) : Int :=
  blc.2 + ((n_rows : Int) - 1 - r)

/-- Does footprint cell `rc` hold a tile that maps outside the board? -/
def oobCell (fp : List (List Cell)) (blc : Int × Int) (H W : Nat) (rc : Nat × Nat) : Bool :=
  ((fp.getD rc.1 []).getD rc.2 none).isSome &&
    !(decide (0 ≤ lockY blc fp.length rc.1) && decide (lockY blc fp.length rc.1 < (H : Int)) &&
      decide (0 ≤ lockX blc rc.2) && decide (lockX blc rc.2 < (W : Int)))

/-- Some occupied footprint cell maps outside the board. -/
def hasOOB (fp : List (List Cell)) (blc : Int × Int) (H W : Nat) : Bool :=
  (footprintPairs fp.length (fp.getD 0 []).length).any (oobCell fp blc H W)

/-- Lock one footprint cell: place it if in bounds (recording the affected
column, without duplicates), otherwise set the game-over flag. -/
def placeStep (fp : List (List Cell)) (blc : Int × Int)
    (acc : GameGrid × List Nat) (rc : Nat × Nat) : GameGrid × List Nat :=
  if ((fp.getD rc.1 []).getD rc.2 none).isSome then
    if 0 ≤ lockY blc fp.length rc.1 ∧ lockY blc fp.length rc.1 < (acc.1.grid_height : Int) ∧
        0 ≤ lockX blc rc.2 ∧ lockX blc rc.2 < (acc.1.grid_width : Int) then
      ({ acc.1 with
          cols := setCell acc.1.cols (lockY blc fp.length rc.1).toNat
            (lockX blc rc.2).toNat ((fp.getD rc.1 []).getD rc.2 none) },
        if (lockX blc rc.2).toNat ∈ acc.2 then acc.2 else acc.2 ++ [(lockX blc rc.2).toNat])
    else ({ acc.1 with game_over := true }, acc.2)
  else acc

/-- Step 1 of `update_grid`: place every footprint cell, collecting the
affected columns and possibly setting the game-over flag. -/
def placeTiles (g : GameGrid) (fp : List (List Cell)) (blc : Int × Int) :
    GameGrid × List Nat :=
  (footprintPairs fp.length (fp.getD 0 []).length).foldl (placeStep fp blc) (g, [])

/-- The `while True: merged = chain_bottom_up_merge(...); if merged:
fall_disconnected_tiles() else: break` loop, with fuel. -/
def mergeSettleLoop : Nat → GameGrid → List Nat → GameGrid
  | 0, g, _ => g
  | fuel + 1, g, columns =>
    if (chainMerge g columns).2 then
      mergeSettleLoop fuel (fallDisconnected (chainMerge g columns).1) columns
    else (chainMerge g columns).1

/-- `GameGrid.update_grid(tiles_to_lock, blc_position)`: lock, then (unless
game over) merge-settle to exhaustion, clear full rows, settle once more.
Returns the new state and the game-over result. -/
def update_grid (g : GameGrid) (fp : List (List Cell)) (blc : Int × Int) :
    GameGrid × Bool :=
  if (placeTiles g fp blc).1.game_over then ((placeTiles g fp blc).1, true)
  else
    (fallDisconnected (clearRows
      (mergeSettleLoop (occCountG (placeTiles g fp blc).1 + 1) (placeTiles g fp blc).1
        (placeTiles g fp blc).2)), false)

/-! ### Lemmas about placement -/

/-- A placement step touches only `cols`, `game_over` and the affected list:
dimensions and score are untouched, the flag becomes
`old flag OR (cell occupied and out of bounds)`. -/
theorem placeStep_frame (fp : List (List Cell)) (blc : Int × Int)
    (acc : GameGrid × List Nat) (rc : Nat × Nat) :
    (placeStep fp blc acc rc).1.grid_height = acc.1.grid_height ∧
      (placeStep fp blc acc rc).1.grid_width = acc.1.grid_width ∧
      (placeStep fp blc acc rc).1.score = acc.1.score ∧
      (placeStep fp blc acc rc).1.cols.length = acc.1.cols.length ∧
      (placeStep fp blc acc rc).1.game_over =
        (acc.1.game_over ||
          oobCell fp blc acc.1.grid_height acc.1.grid_width rc) := by
  unfold placeStep oobCell
  by_cases hcell : ((fp.getD rc.1 []).getD rc.2 none).isSome
  · rw [if_pos hcell]
    by_cases hin : 0 ≤ lockY blc fp.length rc.1 ∧
        lockY blc fp.length rc.1 < (acc.1.grid_height : Int) ∧
        0 ≤ lockX blc rc.2 ∧ lockX blc rc.2 < (acc.1.grid_width : Int)
    · rw [if_pos hin]
      obtain ⟨h1, h2, h3, h4⟩ := hin
      refine ⟨rfl, rfl, rfl, ?_, ?_⟩
      · show (setCell acc.1.cols _ _ _).length = acc.1.cols.length
        rw [setCell, List.length_set]
      · rw [hcell]
        simp [h1, h2, h3, h4]
    · rw [if_neg hin]
      refine ⟨rfl, rfl, rfl, rfl, ?_⟩
      rw [hcell]
      show true = _
      rcases Decidable.not_and_iff_or_not.mp hin with h | hrest
      · simp [h]
      · rcases Decidable.not_and_iff_or_not.mp hrest with h | hrest2
        · simp [h]
        · rcases Decidable.not_and_iff_or_not.mp hrest2 with h | h
          · simp [h]
          · simp [h]
  · rw [if_neg hcell]
    refine ⟨rfl, rfl, rfl, rfl, ?_⟩
    rw [Bool.eq_false_iff.mpr hcell]
    simp

/-- Folded placement frame: the final game-over flag is the initial flag OR
"some occupied cell fell out of bounds". -/
theorem placeTiles_fold_frame (fp : List (List Cell)) (blc : Int × Int) :
    ∀ (pairs : List (Nat × Nat)) (acc : GameGrid × List Nat),
      (pairs.foldl (placeStep fp blc) acc).1.grid_height = acc.1.grid_height ∧
        (pairs.foldl (placeStep fp blc) acc).1.grid_width = acc.1.grid_width ∧
        (pairs.foldl (placeStep fp blc) acc).1.score = acc.1.score ∧
        (pairs.foldl (placeStep fp blc) acc).1.cols.length = acc.1.cols.length ∧
        (pairs.foldl (placeStep fp blc) acc).1.game_over =
          (acc.1.game_over ||
            pairs.any (oobCell fp blc acc.1.grid_height acc.1.grid_width))
  | [], acc => ⟨rfl, rfl, rfl, rfl, by simp⟩
  | rc :: pairs, acc => by
    obtain ⟨e1, e2, e3, e4, e5⟩ := placeStep_frame fp blc acc rc
    obtain ⟨f1, f2, f3, f4, f5⟩ := placeTiles_fold_frame fp blc pairs (placeStep fp blc acc rc)
    rw [List.foldl_cons]
    refine ⟨f1.trans e1, f2.trans e2, f3.trans e3, f4.trans e4, ?_⟩
    rw [f5, e5, e1, e2, List.any_cons]
    rw [Bool.or_assoc]

theorem placeTiles_game_over (g : GameGrid) (fp : List (List Cell)) (blc : Int × Int) :
    (placeTiles g fp blc).1.game_over =
      (g.game_over || hasOOB fp blc g.grid_height g.grid_width) :=
  (placeTiles_fold_frame fp blc (footprintPairs fp.length (fp.getD 0 []).length) (g, [])).2.2.2.2

/-! ### Frame lemmas: what each phase leaves untouched -/

theorem chainMergeStep_frame (acc : GameGrid × Bool) (c : Nat) :
    (chainMergeStep acc c).1.grid_height = acc.1.grid_height ∧
      (chainMergeStep acc c).1.grid_width = acc.1.grid_width ∧
      (chainMergeStep acc c).1.cols.length = acc.1.cols.length ∧
      (chainMergeStep acc c).1.game_over = acc.1.game_over ∧
      acc.1.score ≤ (chainMergeStep acc c).1.score := by
  refine ⟨rfl, rfl, ?_, rfl, ?_⟩
  · show (acc.1.cols.set c _).length = acc.1.cols.length
    rw [List.length_set]
  · show acc.1.score ≤ acc.1.score + _
    omega

theorem chainMerge_fold_frame :
    ∀ (L : List Nat) (acc : GameGrid × Bool),
      (L.foldl chainMergeStep acc).1.grid_height = acc.1.grid_height ∧
        (L.foldl chainMergeStep acc).1.grid_width = acc.1.grid_width ∧
        (L.foldl chainMergeStep acc).1.cols.length = acc.1.cols.length ∧
        (L.foldl chainMergeStep acc).1.game_over = acc.1.game_over ∧
        acc.1.score ≤ (L.foldl chainMergeStep acc).1.score
  | [], acc => ⟨rfl, rfl, rfl, rfl, le_refl _⟩
  | c :: L, acc => by
    obtain ⟨e1, e2, e3, e4, e5⟩ := chainMergeStep_frame acc c
    obtain ⟨f1, f2, f3, f4, f5⟩ := chainMerge_fold_frame L (chainMergeStep acc c)
    rw [List.foldl_cons]
    exact ⟨f1.trans e1, f2.trans e2, f3.trans e3, f4.trans e4, le_trans e5 f5⟩

theorem chainMerge_frame (g : GameGrid) (columns : List Nat) :
    (chainMerge g columns).1.grid_height = g.grid_height ∧
      (chainMerge g columns).1.grid_width = g.grid_width ∧
      (chainMerge g columns).1.cols.length = g.cols.length ∧
      (chainMerge g columns).1.game_over = g.game_over ∧
      g.score ≤ (chainMerge g columns).1.score :=
  chainMerge_fold_frame columns (g, false)

theorem clearRows_frame (g : GameGrid) :
    (clearRows g).grid_height = g.grid_height ∧
      (clearRows g).grid_width = g.grid_width ∧
      (clearRows g).game_over = g.game_over ∧
      g.score ≤ (clearRows g).score := by
  refine ⟨rfl, rfl, rfl, ?_⟩
  show g.score ≤ g.score + _
  omega

/-! ### The merge-settle loop terminates -/

theorem mergeSettleLoop_frame :
    ∀ (fuel : Nat) (g : GameGrid) (columns : List Nat),
      (mergeSettleLoop fuel g columns).grid_height = g.grid_height ∧
        (mergeSettleLoop fuel g columns).grid_width = g.grid_width ∧
        (mergeSettleLoop fuel g columns).game_over = g.game_over ∧
        g.score ≤ (mergeSettleLoop fuel g columns).score
  | 0, g, _ => ⟨rfl, rfl, rfl, le_refl _⟩
  | fuel + 1, g, columns => by
    rw [mergeSettleLoop]
    obtain ⟨c1, c2, c3, c4, c5⟩ := chainMerge_frame g columns
    by_cases hflag : (chainMerge g columns).2
    · rw [if_pos hflag]
      obtain ⟨s1, s2, s3, s4, _⟩ := fallDisconnected_frame (chainMerge g columns).1
      obtain ⟨l1, l2, l3, l4⟩ :=
        mergeSettleLoop_frame fuel (fallDisconnected (chainMerge g columns).1) columns
      refine ⟨l1.trans (s3.trans c1), l2.trans (s4.trans c2), l3.trans (s2.trans c4), ?_⟩
      calc g.score ≤ (chainMerge g columns).1.score := c5
        _ = (fallDisconnected (chainMerge g columns).1).score := s1.symm
        _ ≤ (mergeSettleLoop fuel (fallDisconnected (chainMerge g columns).1) columns).score := l4
    · rw [if_neg hflag]
      exact ⟨c1, c2, c4, c5⟩

/-- With fuel `occupied + 1` the merge-settle loop reaches a state in which a
further merge pass merges nothing: each iteration's merge pass removes at
least one tile (`chainMerge_occ_lt`) and the settle pass none
(`fallDisconnected_occ`). -/
theorem mergeSettleLoop_exits :
    ∀ (fuel : Nat) (g : GameGrid) (columns : List Nat),
      g.cols.length = g.grid_width → occCountG g + 1 ≤ fuel →
      (chainMerge (mergeSettleLoop fuel g columns) columns).2 = false
  | 0, _, _, _, hfuel => by omega
  | fuel + 1, g, columns, hw, hfuel => by
    rw [mergeSettleLoop]
    by_cases hflag : (chainMerge g columns).2
    · rw [if_pos hflag]
      have hlt := chainMerge_occ_lt g columns hflag
      obtain ⟨_, c2, c3, _, _⟩ := chainMerge_frame g columns
      have hw1 : (chainMerge g columns).1.cols.length = (chainMerge g columns).1.grid_width := by
        rw [c3, c2, hw]
      obtain ⟨_, _, _, s4, s5⟩ := fallDisconnected_frame (chainMerge g columns).1
      have hw2 : (fallDisconnected (chainMerge g columns).1).cols.length =
          (fallDisconnected (chainMerge g columns).1).grid_width := by
        rw [s5, s4]
      have hocc := fallDisconnected_occ (chainMerge g columns).1 hw1
      exact mergeSettleLoop_exits fuel (fallDisconnected (chainMerge g columns).1) columns
        hw2 (by omega)
    · rw [if_neg hflag]
      have hfalse : (chainMerge g columns).2 = false := by
        cases hx : (chainMerge g columns).2
        · rfl
        · exact absurd hx hflag
      have heq := chainMerge_false_eq columns g false hfalse
      have h1 : (chainMerge g columns).1 = g := by
        rw [show (chainMerge g columns).1 = (List.foldl chainMergeStep (g, false) columns).1
          from rfl, heq]
      rw [h1]
      exact hfalse

/-- The grid for the C10 witness: one column `[4, 2, 2]`, which needs two
loop iterations (merge the 2s, settle, merge the 4s, settle) to stabilise. -/
def c10Grid : GameGrid :=
  { grid_height := 3
    grid_width := 1
    cols := [[some 4, some 2, some 2]]
    score := 0
    game_over := false }

/-- C10: the merge-settle loop of `update_grid` terminates: a merge pass that
reports a merge removes at least one tile, the gravity-settle pass never adds
or removes tiles, and consequently within `occupied-count` iterations the
loop reaches a state whose merge pass reports no merge (the loop's exit
condition). -/
theorem claim_C10_merge_settle_terminates (g : GameGrid) (columns : List Nat)
    (hw : g.cols.length = g.grid_width) :
    ((chainMerge g columns).2 = true → occCountG (chainMerge g columns).1 < occCountG g)
    ∧ occCountG (fallDisconnected g) = occCountG g
    ∧ (chainMerge (mergeSettleLoop (occCountG g + 1) g columns) columns).2 = false :=
  ⟨chainMerge_occ_lt g columns, fallDisconnected_occ g hw,
    mergeSettleLoop_exits (occCountG g + 1) g columns hw (le_refl _)⟩

/-- Witness for C10 on the one-column grid `[4, 2, 2]`. -/
theorem claim_C10_merge_settle_terminates_witness :
    ((chainMerge c10Grid [0]).2 = true →
      occCountG (chainMerge c10Grid [0]).1 < occCountG c10Grid)
    ∧ occCountG (fallDisconnected c10Grid) = occCountG c10Grid
    ∧ (chainMerge (mergeSettleLoop (occCountG c10Grid + 1) c10Grid [0]) [0]).2 = false :=
  claim_C10_merge_settle_terminates c10Grid [0] (by decide)

/-! ### Claim C2: the game-over result of `update_grid` -/

/-- The grid refuting C2 as stated: the game-over flag is an instance field
that persists across calls, so a lock whose cells are all in bounds can still
return `True`. -/
def c2Grid : GameGrid :=
  { grid_height := 1
    grid_width := 1
    cols := [[none]]
    score := 0
    game_over := true }

/-- C2 is false as stated: on a grid whose `game_over` flag was set by an
earlier call, `update_grid` returns `True` even though every occupied cell of
the supplied footprint is in bounds. -/
theorem claim_C2_counterexample :
    (update_grid c2Grid [[some 2]] (0, 0)).2 = true ∧
      hasOOB [[some 2]] (0, 0) c2Grid.grid_height c2Grid.grid_width = false := by
  decide

/-- C2 amended: `update_grid` returns `true` iff the game-over flag was
already set by a previous call or, in this call, some occupied footprint cell
maps outside the grid; whenever it returns `true` the state is exactly the
placement state (no merge, clear or settle phase ran); and when the flag is
clear and every occupied cell is in bounds it returns `false`. -/
theorem claim_C2_lock_overflow (g : GameGrid) (fp : List (List Cell)) (blc : Int × Int) :
    ((update_grid g fp blc).2 = true ↔
        (g.game_over = true ∨ hasOOB fp blc g.grid_height g.grid_width = true))
    ∧ ((update_grid g fp blc).2 = true →
        (update_grid g fp blc).1 = (placeTiles g fp blc).1)
    ∧ (g.game_over = false → hasOOB fp blc g.grid_height g.grid_width = false →
        (update_grid g fp blc).2 = false) := by
  have hpg := placeTiles_game_over g fp blc
  by_cases hgo : (placeTiles g fp blc).1.game_over = true
  · rw [update_grid, if_pos hgo]
    refine ⟨?_, fun _ => rfl, ?_⟩
    · constructor
      · intro _
        rw [hgo] at hpg
        exact Bool.or_eq_true_iff.mp hpg.symm
      · intro _
        rfl
    · intro hg hoob
      rw [hg, hoob] at hpg
      rw [hgo] at hpg
      exact absurd hpg.symm (by simp)
  · rw [update_grid, if_neg hgo]
    have hflag : (g.game_over || hasOOB fp blc g.grid_height g.grid_width) = false := by
      cases hx : (placeTiles g fp blc).1.game_over
      · rw [hx] at hpg
        exact hpg.symm
      · exact absurd hx hgo
    refine ⟨?_, ?_, fun _ _ => rfl⟩
    · constructor
      · intro h
        exact absurd h (by simp)
      · intro h
        exfalso
        rcases Bool.or_eq_false_iff.mp hflag with ⟨h1, h2⟩
        rcases h with h | h
        · rw [h1] at h
          exact absurd h (by simp)
        · rw [h2] at h
          exact absurd h (by simp)
    · intro h
      exact absurd h (by simp)

/-- Witness for the amended C2: a fresh 2-row, 1-column grid accepts an
in-bounds one-cell lock and resolves to `false`. -/
theorem claim_C2_lock_overflow_witness :
    (update_grid (mkGrid 2 1) [[some 2]] (0, 1)).2 = false :=
  (claim_C2_lock_overflow (mkGrid 2 1) [[some 2]] (0, 1)).2.2 rfl (by decide)

/-! ### Claim C9: the score never decreases -/

theorem update_grid_score_mono (g : GameGrid) (fp : List (List Cell)) (blc : Int × Int) :
    g.score ≤ (update_grid g fp blc).1.score := by
  have hps : (placeTiles g fp blc).1.score = g.score :=
    (placeTiles_fold_frame fp blc (footprintPairs fp.length (fp.getD 0 []).length)
      (g, [])).2.2.1
  by_cases hgo : (placeTiles g fp blc).1.game_over = true
  · rw [update_grid, if_pos hgo]
    rw [hps]
  · rw [update_grid, if_neg hgo]
    have h1 := (mergeSettleLoop_frame (occCountG (placeTiles g fp blc).1 + 1)
      (placeTiles g fp blc).1 (placeTiles g fp blc).2).2.2.2
    have h2 := (clearRows_frame (mergeSettleLoop (occCountG (placeTiles g fp blc).1 + 1)
      (placeTiles g fp blc).1 (placeTiles g fp blc).2)).2.2.2
    have h3 := (fallDisconnected_frame (clearRows
      (mergeSettleLoop (occCountG (placeTiles g fp blc).1 + 1) (placeTiles g fp blc).1
        (placeTiles g fp blc).2))).1
    show g.score ≤ (fallDisconnected (clearRows (mergeSettleLoop _ _ _))).score
    rw [h3]
    omega

/-- The engine calls a driver can make.  `move` and `rotate` mutate only the
active tetromino (`tetromino.py` reads the grid but never writes it), so
their grid effect is the identity; `lock` is `update_grid`. -/
inductive EngineCall where
  | lock : List (List Cell) → Int × Int → EngineCall
  | moveLeft : EngineCall
  | moveRight : EngineCall
  | moveDown : EngineCall
  | rotatePiece : EngineCall

/-- Effect of one engine call on the grid state. -/
def applyCall (g : GameGrid) : EngineCall → GameGrid
  | .lock fp blc => (update_grid g fp blc).1
  | .moveLeft => g
  | .moveRight => g
  | .moveDown => g
  | .rotatePiece => g

theorem applyCall_score_mono (g : GameGrid) (call : EngineCall) :
    g.score ≤ (applyCall g call).score := by
  cases call with
  | lock fp blc => exact update_grid_score_mono g fp blc
  | moveLeft => exact le_refl _
  | moveRight => exact le_refl _
  | moveDown => exact le_refl _
  | rotatePiece => exact le_refl _

theorem foldl_applyCall_score_mono :
    ∀ (calls : List EngineCall) (g : GameGrid),
      g.score ≤ (calls.foldl applyCall g).score
  | [], _ => le_refl _
  | call :: calls, g => by
    rw [List.foldl_cons]
    exact le_trans (applyCall_score_mono g call)
      (foldl_applyCall_score_mono calls (applyCall g call))

/-- C9: the score starts at 0 and is monotonically non-decreasing across any
sequence of engine calls: a fresh grid has score 0, one lock-and-resolve call
never decreases the score (merges and row clears only add, settling leaves it
unchanged), and movement/rotation never touch the grid, so any fold of engine
calls leaves the score no smaller than it started. -/
theorem claim_C9_score_monotone :
    (∀ H W : Nat, (mkGrid H W).score = 0)
    ∧ (∀ (g : GameGrid) (fp : List (List Cell)) (blc : Int × Int),
        g.score ≤ (update_grid g fp blc).1.score)
    ∧ (∀ (g : GameGrid) (calls : List EngineCall),
        g.score ≤ (calls.foldl applyCall g).score) :=
  ⟨fun _ _ => rfl, update_grid_score_mono,
    fun g calls => foldl_applyCall_score_mono calls g⟩

/-! ## Tetromino shapes, spawn and rotation (`tetromino.py`)

`Tetromino.__init__` lists `occupied_cells` as pairs that are unpacked as
`for col_index, row_index in occupied_cells` and written to
`tile_matrix[row_index][col_index]`, so each pair is `(col, row)` with row 0
the TOP of the local matrix (`get_cell_position` maps matrix row `r` to board
`y = blc.y + (n-1) - r`, so smaller `r` is higher).  The tile matrix is
modelled as occupancy (`Bool`); the tiles' random 2/4 values play no role in
the shape claims. -/

/-- The seven tetromino types. -/
inductive TetType where
  | I | O | Z | S | T | J | L
deriving DecidableEq, Fintype

/-- Local matrix size `n` per type. -/
def shapeSize : TetType → Nat
  | .I => 4
  | .O => 2
  | _ => 3

/-- The `occupied_cells` pairs exactly as written in the source; the source
unpacks each as `(col_index, row_index)`. -/
def shapeCells : TetType → List (Nat × Nat)
  | .I => [(1, 0), (1, 1), (1, 2), (1, 3)]
  | .O => [(0, 0), (1, 0), (0, 1), (1, 1)]
  | .Z => [(0, 1), (1, 1), (1, 2), (2, 2)]
  | .S => [(1, 1), (2, 1), (0, 2), (1, 2)]
  | .T => [(0, 1), (1, 1), (2, 1), (1, 0)]
  | .J => [(0, 1), (1, 1), (2, 1), (2, 2)]
  | .L => [(0, 2), (0, 1), (1, 1), (2, 1)]

/-- Build the `n×n` occupancy matrix as `__init__` does:
`self.tile_matrix[row_index][col_index] = Tile()` over `occupied_cells`. -/
def initMatrix (t : TetType) : List (List Bool) :=
  (shapeCells t).foldl
    (fun m cr => m.set cr.2 ((m.getD cr.2 []).set cr.1 true))
    (List.replicate (shapeSize t) (List.replicate (shapeSize t) false))

/-- Occupancy of the freshly built matrix at matrix row `r` (0 = top), col `c`. -/
def occupied (t : TetType) (r c : Nat) : Bool :=
  ((initMatrix t).getD r []).getD c false

/-- Occupancy read in the spec's coordinates: row `b` counted from the
BOTTOM of the local matrix. -/
def occupiedBottom (t : TetType) (b c : Nat) : Bool :=
  occupied t (shapeSize t - 1 - b) c

/-- The cell lists exactly as printed in the claim, which reads each pair as
`(row, col)` with row 0 the bottom of the local matrix. -/
def claimCells : TetType → List (Nat × Nat)
  | .I => [(1, 0), (1, 1), (1, 2), (1, 3)]
  | .O => [(0, 0), (1, 0), (0, 1), (1, 1)]
  | .Z => [(0, 1), (1, 1), (1, 2), (2, 2)]
  | .S => [(1, 1), (2, 1), (0, 2), (1, 2)]
  | .T => [(0, 1), (1, 1), (2, 1), (1, 0)]
  | .J => [(0, 1), (1, 1), (2, 1), (2, 2)]
  | .L => [(0, 2), (0, 1), (1, 1), (2, 1)]

/-- Number of occupied cells of an occupancy matrix. -/
def occBoolCount (m : List (List Bool)) : Nat :=
  (m.map (fun row => row.countP (fun b => b))).sum

/-- C6 is false as stated: the claim reads the pairs as (row-from-bottom,
col), but the source unpacks them as (col, row-from-top).  For type I the
claim lists cell (1,0) — bottom row 1, column 0 — which the code leaves
empty (the code's I piece is a vertical bar in column 1), and the code
occupies (0,1), which the claim's list does not contain. -/
theorem claim_C6_counterexample :
    ((1, 0) ∈ claimCells TetType.I) ∧ occupiedBottom TetType.I 1 0 = false ∧
      occupiedBottom TetType.I 0 1 = true ∧ ((0, 1) ∉ claimCells TetType.I) := by
  decide

/-- C6 amended: each listed pair is `(col, row)` with row 0 the TOP of the
local matrix — cell (row `r`, col `c`) of the built matrix is occupied
exactly when `(c, r)` appears in the list — and every type's pattern has
exactly 4 occupied cells. -/
theorem claim_C6_shape_patterns :
    (∀ t : TetType, ∀ r < shapeSize t, ∀ c < shapeSize t,
        (occupied t r c = true ↔ (c, r) ∈ shapeCells t))
    ∧ (∀ t : TetType, occBoolCount (initMatrix t) = 4) := by
  constructor
  · decide
  · decide

/-- Witness for the amended C6: the I piece occupies matrix cell (0, 1) —
pair (1, 0) in source order — and the O piece has 4 occupied cells. -/
theorem claim_C6_shape_patterns_witness :
    (occupied TetType.I 0 1 = true ↔ (1, 0) ∈ shapeCells TetType.I) ∧
      occBoolCount (initMatrix TetType.O) = 4 :=
  ⟨claim_C6_shape_patterns.1 TetType.I 0 (by decide) 1 (by decide),
    claim_C6_shape_patterns.2 TetType.O⟩

/-! ### Spawn position (claim C7) -/

/-- The spawn position of `Tetromino.__init__`: `bottom_left_cell.y =
grid_height - 1` and `bottom_left_cell.x = random.randint(0, grid_width - n)`,
the random outcome passed in as `rand`. -/
def spawnBlc (H : Nat) (rand : Nat) : Int × Int :=
  ((rand : Int), (H : Int) - 1)

/-- `Tetromino.get_cell_position`: board x of matrix column `c`. -/
def cellPosX (blc : Int × Int) (c : Nat) : Int :=
  blc.1 + c

/-- `Tetromino.get_cell_position`: board y of matrix row `r` (`blc.y + (n-1) - r`). -/
def cellPosY (blc : Int × Int) (n : Nat) (r : Nat) : Int :=
  blc.2 + ((n : Int) - 1 - r)

/-- C7 is false in its alignment part: for the I piece on a board of height 5
the topmost occupied cell (matrix row 0, column 1) spawns at board row 7,
not at the top row 4; the code aligns the BOTTOM row of the local matrix
with the board's top row, placing pieces at or above the top. -/
theorem claim_C7_counterexample :
    occupied TetType.I 0 1 = true ∧
      cellPosY (spawnBlc 5 0) (shapeSize TetType.I) 0 = 7 ∧
      ¬((7 : Int) ≤ (5 : Int) - 1) := by
  decide

/-- C7 amended: for every board (`H`, `W`), type and randomness outcome
within `randint`'s contract, the spawn x lies in `[0, W - n]`; the spawn y is
`H - 1`, aligning the bottom row of the local matrix (not the piece's topmost
occupied cell) with the board's top row; consequently every occupied cell
spawns at board row `H - 1` or above. -/
theorem claim_C7_spawn_position (H W : Nat) (t : TetType) (rand : Nat)
    (hn : shapeSize t ≤ W) (hrand : rand ≤ W - shapeSize t) :
    (0 ≤ (spawnBlc H rand).1 ∧ (spawnBlc H rand).1 ≤ (W : Int) - shapeSize t)
    ∧ (spawnBlc H rand).2 = (H : Int) - 1
    ∧ (∀ r < shapeSize t, ∀ c < shapeSize t, occupied t r c = true →
        (H : Int) - 1 ≤ cellPosY (spawnBlc H rand) (shapeSize t) r) := by
  refine ⟨⟨?_, ?_⟩, rfl, ?_⟩
  · exact Int.ofNat_nonneg rand
  · show (rand : Int) ≤ (W : Int) - shapeSize t
    rw [← Nat.cast_sub hn]
    exact_mod_cast hrand
  · intro r hr c _ _
    show (H : Int) - 1 ≤ (H : Int) - 1 + ((shapeSize t : Int) - 1 - r)
    omega

/-- Witness for the amended C7: I piece, board 5×8, spawn column 2. -/
theorem claim_C7_spawn_position_witness :
    (0 ≤ (spawnBlc 5 2).1 ∧ (spawnBlc 5 2).1 ≤ (8 : Int) - shapeSize TetType.I)
    ∧ (spawnBlc 5 2).2 = (5 : Int) - 1
    ∧ (5 : Int) - 1 ≤ cellPosY (spawnBlc 5 2) (shapeSize TetType.I) 1 :=
  ⟨(claim_C7_spawn_position 5 8 TetType.I 2 (by decide) (by decide)).1,
    (claim_C7_spawn_position 5 8 TetType.I 2 (by decide) (by decide)).2.1,
    (claim_C7_spawn_position 5 8 TetType.I 2 (by decide) (by decide)).2.2 1 (by decide) 1
      (by decide) (by decide)⟩

/-! ### Rotation (claim C8)

`Tetromino.rotate(game_grid)` computes `rotated = np.rot90(tile_matrix, -1)`
(90° clockwise: `rotated[i][j] = m[n-1-j][i]`, i.e. transpose followed by
column reversal), validates every occupied cell of the rotated matrix at the
current bottom-left against board bounds and grid occupancy, and commits the
rotated matrix (bottom-left unchanged) returning `True`, or leaves the piece
untouched and returns `False`.  The source checks bounds against the
class-level `Tetromino.grid_width/grid_height` and occupancy against the
passed grid; the driver sets both to the same board, so both are read off the
grid argument here. -/

/-- A live tetromino: its tile matrix (row-major, row 0 = top of the local
matrix) and its board-space bottom-left reference point. -/
structure Tetromino where
  tile_matrix : List (List Cell)
  bottom_left : Int × Int
deriving DecidableEq

/-- `np.rot90(m, -1)`: `rotated[i][j] = m[n-1-j][i]`. -/
def rot90cw (m : List (List Cell)) : List (List Cell) :=
  (List.range m.length).map
    (fun i => (List.range m.length).map
      (fun j => (m.getD (m.length - 1 - j) []).getD i none))

/-- The validation loop of `rotate`: every occupied cell of the rotated
matrix must be inside the board and not collide with a locked tile. -/
def rotateValid (g : GameGrid) (t : Tetromino) (rotated : List (List Cell)) : Bool :=
  (List.range rotated.length).all fun r =>
    (List.range rotated.length).all fun c =>
      !((rotated.getD r []).getD c none).isSome ||
        (decide (0 ≤ cellPosX t.bottom_left c) &&
          decide (cellPosX t.bottom_left c < (g.grid_width : Int)) &&
          decide (0 ≤ cellPosY t.bottom_left rotated.length r) &&
          decide (cellPosY t.bottom_left rotated.length r < (g.grid_height : Int)) &&
          !(isOccupied g (cellPosY t.bottom_left rotated.length r)
            (cellPosX t.bottom_left c)))

/-- `Tetromino.rotate(game_grid)`. -/
def rotateT (g : GameGrid) (t : Tetromino) : Tetromino × Bool :=
  if rotateValid g t (rot90cw t.tile_matrix) then
    ({ t with tile_matrix := rot90cw t.tile_matrix }, true)
  else (t, false)

/-- Occupied-cell count of a tetromino tile matrix. -/
def occCountM (m : List (List Cell)) : Nat :=
  (m.map occCount).sum

theorem getD_range_map {β : Type} (f : Nat → β) (d : β) (n i : Nat) (h : i < n) :
    ((List.range n).map f).getD i d = f i := by
  rw [List.getD_eq_getElem?_getD, List.getElem?_map, List.getElem?_range h]
  rfl

theorem listsum_map_range (f : Nat → Nat) :
    ∀ n : Nat, ((List.range n).map f).sum = ∑ i ∈ Finset.range n, f i
  | 0 => rfl
  | n + 1 => by
    rw [List.range_succ, List.map_append, List.sum_append, Finset.sum_range_succ,
      listsum_map_range f n]
    simp

theorem occCount_eq_sum_range :
    ∀ l : Column,
      occCount l = ∑ i ∈ Finset.range l.length, (if (l.getD i none).isSome then 1 else 0)
  | [] => rfl
  | x :: t => by
    rw [occCount, List.countP_cons, ← occCount, occCount_eq_sum_range t,
      List.length_cons, Finset.sum_range_succ']
    simp only [List.getD_cons_succ, List.getD_cons_zero]

/-- The clockwise rotation permutes the cells, so it preserves the
occupied-cell count of any square matrix. -/
theorem rot90cw_occ (m : List (List Cell)) (hsq : ∀ row ∈ m, row.length = m.length) :
    occCountM (rot90cw m) = occCountM m := by
  have step1 : occCountM (rot90cw m) =
      ∑ i ∈ Finset.range m.length,
        occCount ((List.range m.length).map
          (fun j => (m.getD (m.length - 1 - j) []).getD i none)) := by
    rw [occCountM, rot90cw, List.map_map, listsum_map_range]
    rfl
  have step2 : ∀ i : Nat,
      occCount ((List.range m.length).map
        (fun j => (m.getD (m.length - 1 - j) []).getD i none)) =
      ∑ j ∈ Finset.range m.length,
        (if ((m.getD (m.length - 1 - j) []).getD i none).isSome then 1 else 0) := by
    intro i
    rw [occCount_eq_summap, List.map_map, listsum_map_range]
    rfl
  have step5 : ∀ k ∈ Finset.range m.length,
      (∑ i ∈ Finset.range m.length,
        (if ((m.getD k []).getD i none).isSome then 1 else 0)) =
      occCount (m.getD k []) := by
    intro k hk
    have hklen : k < m.length := Finset.mem_range.mp hk
    have hrow : (m.getD k []).length = m.length := by
      have hmem : m.getD k [] ∈ m := by
        rw [List.getD_eq_getElem?_getD, List.getElem?_eq_getElem hklen]
        exact List.getElem_mem hklen
      exact hsq (m.getD k []) hmem
    rw [occCount_eq_sum_range (m.getD k []), hrow]
  calc occCountM (rot90cw m)
      = ∑ i ∈ Finset.range m.length, ∑ j ∈ Finset.range m.length,
          (if ((m.getD (m.length - 1 - j) []).getD i none).isSome then 1 else 0) := by
        rw [step1]
        exact Finset.sum_congr rfl (fun i _ => step2 i)
    _ = ∑ j ∈ Finset.range m.length, ∑ i ∈ Finset.range m.length,
          (if ((m.getD (m.length - 1 - j) []).getD i none).isSome then 1 else 0) :=
        Finset.sum_comm
    _ = ∑ j ∈ Finset.range m.length, ∑ i ∈ Finset.range m.length,
          (if ((m.getD j []).getD i none).isSome then 1 else 0) :=
        Finset.sum_range_reflect
          (fun j => ∑ i ∈ Finset.range m.length,
            (if ((m.getD j []).getD i none).isSome then 1 else 0)) m.length
    _ = ∑ k ∈ Finset.range m.length, occCount (m.getD k []) :=
        Finset.sum_congr rfl step5
    _ = ((List.range m.length).map (fun k => occCount (m.getD k []))).sum :=
        (listsum_map_range _ m.length).symm
    _ = occCountM m := by
      rw [occCountM, sum_map_range_getD occCount [] m]

/-- C8: `rotate` commits the 90°-clockwise rotation (cell `(i,j)` of the
rotated matrix is cell `(n-1-j, i)` of the original — transpose plus column
reversal) exactly when every occupied rotated cell is inside the board and
not already occupied, keeping the bottom-left unchanged (no wall-kick);
otherwise it returns `false` leaving the piece unmodified; and in both cases
the number of occupied cells is unchanged. -/
theorem claim_C8_rotate (g : GameGrid) (t : Tetromino)
    (hsq : ∀ row ∈ t.tile_matrix, row.length = t.tile_matrix.length) :
    (∀ i < t.tile_matrix.length, ∀ j < t.tile_matrix.length,
        ((rot90cw t.tile_matrix).getD i []).getD j none =
          (t.tile_matrix.getD (t.tile_matrix.length - 1 - j) []).getD i none)
    ∧ ((rotateT g t).2 = true ↔ rotateValid g t (rot90cw t.tile_matrix) = true)
    ∧ ((rotateT g t).2 = true → (rotateT g t).1.tile_matrix = rot90cw t.tile_matrix)
    ∧ ((rotateT g t).2 = false → (rotateT g t).1 = t)
    ∧ (rotateT g t).1.bottom_left = t.bottom_left
    ∧ occCountM (rotateT g t).1.tile_matrix = occCountM t.tile_matrix := by
  by_cases hvalid : rotateValid g t (rot90cw t.tile_matrix) = true
  · refine ⟨?_, ?_, ?_, ?_, ?_, ?_⟩
    · intro i hi j hj
      rw [rot90cw, getD_range_map _ [] t.tile_matrix.length i hi,
        getD_range_map _ none t.tile_matrix.length j hj]
    · rw [rotateT, if_pos hvalid]
      simp [hvalid]
    · intro _
      rw [rotateT, if_pos hvalid]
    · intro hfalse
      rw [rotateT, if_pos hvalid] at hfalse
      exact absurd hfalse (by simp)
    · rw [rotateT, if_pos hvalid]
    · rw [rotateT, if_pos hvalid]
      exact rot90cw_occ t.tile_matrix hsq
  · refine ⟨?_, ?_, ?_, ?_, ?_, ?_⟩
    · intro i hi j hj
      rw [rot90cw, getD_range_map _ [] t.tile_matrix.length i hi,
        getD_range_map _ none t.tile_matrix.length j hj]
    · rw [rotateT, if_neg hvalid]
      simp [hvalid]
    · intro htrue
      rw [rotateT, if_neg hvalid] at htrue
      exact absurd htrue (by simp)
    · intro _
      rw [rotateT, if_neg hvalid]
    · rw [rotateT, if_neg hvalid]
    · rw [rotateT, if_neg hvalid]

/-- Concrete grid and piece for the C8 witness. -/
def c8Grid : GameGrid := mkGrid 2 2

def c8Piece : Tetromino :=
  { tile_matrix := [[some 2, none], [none, none]]
    bottom_left := (0, 0) }

/-- Witness for C8: rotating a one-tile 2×2 piece on an empty 2×2 board. -/
theorem claim_C8_rotate_witness :
    (rotateT c8Grid c8Piece).1.bottom_left = c8Piece.bottom_left ∧
      occCountM (rotateT c8Grid c8Piece).1.tile_matrix = occCountM c8Piece.tile_matrix :=
  ⟨(claim_C8_rotate c8Grid c8Piece (by decide)).2.2.2.2.1,
    (claim_C8_rotate c8Grid c8Piece (by decide)).2.2.2.2.2⟩

end Tetris2048
